import Mathlib

/-!
Shallow embedding of `src/app.py` (streamlit-flashcards): a generator of
double-sided printable flashcards.  Pure computations of the program
(CSV-row parsing, color-tag extraction, deck padding, grid geometry,
duplex cell mapping, luminance-based foreground choice) are translated
into executable Lean definitions; the drawing side effects of `build_pdf`
are modelled as an explicit trace of draw events.  Machine floats of the
source are modelled over `ℚ` (the arithmetic in question is exact).
-/

namespace App

/-! ## Python string primitives used by the source -/

/-- Python's `\s` / `str.strip()` whitespace set (ASCII part). -/
def isPySpace (c : Char) : Bool :=
  c = ' ' || c = '\t' || c = '\n' || c = '\r' || c = '\x0b' || c = '\x0c'

/-- Python `str.strip()` on a list of characters. -/
def pyStripL (s : List Char) : List Char :=
  ((s.dropWhile isPySpace).reverse.dropWhile isPySpace).reverse

/-- Python `str.strip()` on a `String`. -/
def pyStrip (s : String) : String :=
  String.mk (pyStripL s.data)

/-- Python `str.lower()` (ASCII part, which is all the program relies on). -/
def pyLower (s : String) : String :=
  String.mk (s.data.map Char.toLower)

/-- `normalize_header` from the source:
`re.sub(r"\s+", "", (h or "").strip().lower())` — lowercase and delete
every whitespace character. -/
def normalize_header (h : String) : String :=
  String.mk ((h.data.map Char.toLower).filter (fun c => !(isPySpace c)))

/-- Boolean prefix test on character lists. -/
def listPref : List Char → List Char → Bool
  | [], _ => true
  | _ :: _, [] => false
  | a :: as, b :: bs => a = b && listPref as bs

/-- Boolean substring test: Python's `sub in s`. -/
def listSub (sub : List Char) : List Char → Bool
  | [] => listPref sub []
  | c :: rest => listPref sub (c :: rest) || listSub sub rest

/-- Python `key in low` on strings. -/
def strContains (s sub : String) : Bool :=
  listSub sub.data s.data

/-! ## Colors -/

/-- A color as an (r, g, b) triple of rationals in [0, 1]
(reportlab's `colors.Color` channel values). -/
structure RGB where
  red : ℚ
  green : ℚ
  blue : ℚ
deriving DecidableEq, Repr

def rgbWhite : RGB := ⟨1, 1, 1⟩
def rgbBlack : RGB := ⟨0, 0, 0⟩

/-- `COLOR_MAP` from the source: hex colors keyed by French color names. -/
def COLOR_MAP : List (String × RGB) :=
  [ ("bleu",  ⟨0x2D / 255, 0x6C / 255, 0xDF / 255⟩),
    ("rouge", ⟨0xD6 / 255, 0x45 / 255, 0x41 / 255⟩),
    ("rose",  ⟨0xE8 / 255, 0x5D / 255, 0x9E / 255⟩),
    ("vert",  ⟨0x2E / 255, 0xCC / 255, 0x71 / 255⟩),
    ("jaune", ⟨0xF1 / 255, 0xC4 / 255, 0x0F / 255⟩) ]

/-- The five recognized color names, in the iteration order of the source. -/
def COLOR_KEYS : List String := ["bleu", "rouge", "rose", "vert", "jaune"]

/-- Membership test `extracted_color_name in COLOR_MAP` (a Python dict
membership test is on the keys). -/
def colorKeyKnown (k : String) : Bool :=
  (COLOR_MAP.map Prod.fst).contains k

/-- Dict lookup `COLOR_MAP[key]` (only ever called on known keys;
falls back to the blue entry like `COLOR_MAP.get` with a default would). -/
def colorMapGet (k : String) (dflt : RGB) : RGB :=
  match COLOR_MAP.find? (fun p => p.1 = k) with
  | some p => p.2
  | none => dflt

/-- The loop body of `pick_color_from_filename`: return the first key of
the candidate list that occurs in `low` as a substring. -/
def pickColorLoop (low : String) : List String → String
  | [] => "bleu"
  | k :: ks => if strContains low k then k else pickColorLoop low ks

/-- `pick_color_from_filename` from the source. -/
def pick_color_from_filename (filename : String) : String × RGB :=
  let low := pyLower filename
  let key := pickColorLoop low COLOR_KEYS
  (key, colorMapGet key ⟨0x2D / 255, 0x6C / 255, 0xDF / 255⟩)

/-- `is_dark` from the source: relative luminance below 0.55. -/
def is_dark (c : RGB) : Bool :=
  decide (0.2126 * c.red + 0.7152 * c.green + 0.0722 * c.blue < (0.55 : ℚ))

/-- The front-face text color chosen in `build_pdf`
(`colors.white if is_dark(current_back_color) else colors.black`). -/
def frontTextColor (bg : RGB) : RGB :=
  if is_dark bg then rgbWhite else rgbBlack

/-! ## Grid geometry (`compute_grid`, `card_xy`), over `ℚ` -/

/-- One reportlab `cm` unit in points: `72 / 2.54`. -/
def cmUnit : ℚ := 72 / 2.54

def NB_CARTES : ℕ := 10
def COLS : ℕ := 2
def ROWS : ℕ := 5
def MARGIN : ℚ := 1.0 * cmUnit
def GAP : ℚ := 0.35 * cmUnit
def ELEMENT_SPACING : ℚ := 0.8 * cmUnit

/-- A4 page size in points, as reportlab defines it (`210mm × 297mm`). -/
def A4w : ℚ := 21 * cmUnit
def A4h : ℚ := 29.7 * cmUnit

/-- The `Grid` class of the source. -/
structure Grid where
  page_w : ℚ
  page_h : ℚ
  card_w : ℚ
  card_h : ℚ
  x0 : ℚ
  y0 : ℚ
deriving Repr

/-- `compute_grid` from the source. -/
def compute_grid : Grid :=
  let page_w := A4w
  let page_h := A4h
  let usable_w := page_w - 2 * MARGIN - (COLS - 1 : ℕ) * GAP
  let usable_h := page_h - 2 * MARGIN - (ROWS - 1 : ℕ) * GAP
  let card_w := usable_w / (COLS : ℚ)
  let card_h := usable_h / (ROWS : ℚ)
  ⟨page_w, page_h, card_w, card_h, MARGIN, MARGIN⟩

/-- `card_xy` from the source: bottom-left corner of cell `(col, row)`,
row 0 at the top of the page. -/
def card_xy (grid : Grid) (col row : ℕ) : ℚ × ℚ :=
  let x := grid.x0 + (col : ℚ) * (grid.card_w + GAP)
  let y_top := grid.page_h - grid.y0 - (row : ℚ) * (grid.card_h + GAP)
  (x, y_top - grid.card_h)

/-! ## Inline color-tag extraction

Model of `re.search(r'\(([^)]+)\)\s*$', q_raw)` followed, on success with a
recognized color, by `re.sub(r'\s*\(([^)]+)\)\s*$', '', q_raw).strip()`.
The regex matches at the leftmost `(` that is followed by at least one
non-`)` character, then a `)`, then only whitespace up to the end of the
string. -/

/-- The string reversed with its trailing whitespace removed (the `\s*$`
part of the pattern). -/
def tailAfterSpaces (s : List Char) : List Char :=
  s.reverse.dropWhile isPySpace

/-- Core of the match, applied to the reversed input after the final `)`
has been consumed: take the maximal `)`-free run (the regex's `[^)]+`
cannot cross a `)`), and split it at its leftmost `(` in input order
(the regex engine tries `(` start positions left to right). -/
def matchParenCore (rest2 : List Char) : Option (List Char × List Char) :=
  let chunkRev := rest2.takeWhile (fun c => c ≠ ')')
  let afterRev := rest2.drop chunkRev.length
  match (chunkRev.reverse).span (fun c => c ≠ '(') with
  | (before, _ :: content) =>
    if content.isEmpty then none
    else some (content, afterRev.reverse ++ before)
  | (_, []) => none

/-- Locate the trailing parenthesized group of `s`, if any; returns
`(content of the group, prefix of s before the matched opening paren)`.
Implemented by scanning from the right: drop trailing whitespace, require
a `)`, then `matchParenCore`. -/
def matchTrailingParen (s : List Char) : Option (List Char × List Char) :=
  match tailAfterSpaces s with
  | x :: rest2 => if x = ')' then matchParenCore rest2 else none
  | [] => none

/-- The color-tag extraction block of `read_cards_from_csv`: returns the
question text and the optional card color key. -/
def extract_color_tag (q_raw : String) : String × Option String :=
  match matchTrailingParen q_raw.data with
  | some (content, pre) =>
    let name := String.mk (pyStripL (content.map Char.toLower))
    if colorKeyKnown name then (String.mk (pyStripL pre), some name)
    else (q_raw, none)
  | none => (q_raw, none)

/-! ## Card records and CSV-row parsing (`read_cards_from_csv`) -/

/-- One parsed card: the dict
`{"question": ..., "texte": ..., "card_color_key": ...}` of the source
(the blank padding dict of `build_pdf` lacks the color entry; its `.get`
then yields `None`, i.e. `none` here). -/
structure Card where
  question : String
  texte : String
  card_color_key : Option String
deriving DecidableEq, Repr

/-- The header vocabulary of the `has_header` test. -/
def HEADER_VOCAB : List String :=
  ["question", "q", "texte", "text", "reponse", "réponse", "answer",
   "reponseverso", "verso"]

/-- `r[i].strip() if i < len(r) else ""` from the dict comprehension. -/
def getCell (r : List String) (i : ℕ) : String :=
  match r.get? i with
  | some v => pyStrip v
  | none => ""

/-- One step of building the per-row dict: Python dict assignment
(overwrite the value if the key is present, else append the pair,
keeping first-insertion order). -/
def dictInsert (d : List (String × String)) (k v : String) :
    List (String × String) :=
  if d.any (fun p => p.1 = k) then
    d.map (fun p => if p.1 = k then (p.1, v) else p)
  else d ++ [(k, v)]

/-- The dict comprehension
`{headers[i]: (r[i].strip() if i < len(r) else "") for i in range(len(headers))}`. -/
def rowDict (headers : List String) (r : List String) :
    List (String × String) :=
  (List.range headers.length).foldl
    (fun d i => dictInsert d (headers.getD i "") (getCell r i)) []

/-- The inner loop of `get_field`: scan the dict entries in order and
return the (stripped) value of the first entry whose normalized key
equals `nk`. -/
def getFieldScan (d : List (String × String)) (nk : String) :
    Option String :=
  match d.find? (fun p => normalize_header p.1 = nk) with
  | some p => some (pyStrip p.2)
  | none => none

/-- `get_field` from the source (with fallback `""`). -/
def get_field (d : List (String × String)) : List String → String
  | [] => ""
  | k :: ks =>
    match getFieldScan d (normalize_header k) with
    | some v => v
    | none => get_field d ks

/-- `any(str(x).strip() for x in r)`: the row has some non-blank cell. -/
def rowNonEmpty (r : List String) : Bool :=
  r.any (fun x => pyStrip x ≠ "")

/-- The headered branch of `read_cards_from_csv`, for one data row. -/
def cardFromHeadered (headers : List String) (r : List String) : Card :=
  let d := rowDict headers r
  let q_raw := get_field d ["question", "q"]
  let qc := extract_color_tag q_raw
  let txt := get_field d
    ["texte", "text", "reponse", "réponse", "answer", "verso", "reponseverso"]
  ⟨qc.1, txt, qc.2⟩

/-- The headerless branch of `read_cards_from_csv`, for one row:
column 0 → question, column 1 → back text (column 2 if column 1 is empty). -/
def cardFromHeaderless (r : List String) : Card :=
  let q_raw := match r.get? 0 with | some v => pyStrip v | none => ""
  let qc := extract_color_tag q_raw
  let txt1 := match r.get? 1 with | some v => pyStrip v | none => ""
  let txt := if txt1 = "" then
      match r.get? 2 with | some v => pyStrip v | none => ""
    else txt1
  ⟨qc.1, txt, qc.2⟩

/-- `read_cards_from_csv` from the point where the CSV reader has
produced the list of rows (the delimiter sniffing and low-level CSV
splitting are the external `csv` module). -/
def read_cards_from_rows (rows : List (List String)) : List Card :=
  match rows with
  | [] => []
  | first :: rest =>
    let norm_first := first.map normalize_header
    let has_header := norm_first.any (fun x => HEADER_VOCAB.contains x)
    if has_header then
      (rest.filter rowNonEmpty).map (cardFromHeadered norm_first)
    else
      ((first :: rest).filter rowNonEmpty).map cardFromHeaderless

/-! ## Deck assembly (`build_pdf`, line `cards10 = ...`) -/

/-- The blank padding record `{"question": "", "texte": ""}`; its absent
color entry reads back as `None`. -/
def blankCard : Card := ⟨"", "", none⟩

/-- `cards10 = (cards[:NB_CARTES] + [blank] * NB_CARTES)[:NB_CARTES]`. -/
def assembleDeck (cards : List Card) : List Card :=
  (cards.take NB_CARTES ++ List.replicate NB_CARTES blankCard).take NB_CARTES

/-! ## Duplex cell mapping (the recto / verso loops of `build_pdf`) -/

/-- Front-face cell of logical slot `i`: `(i % COLS, i // COLS)`. -/
def frontCell (i : ℕ) : ℕ × ℕ := (i % COLS, i / COLS)

/-- Back-face cell of logical slot `i`: column mirrored
(`COLS - 1 - col`), row unchanged. -/
def backCell (i : ℕ) : ℕ × ℕ := (COLS - 1 - i % COLS, i / COLS)

/-! ## Draw-event trace of `build_pdf`

Drawing, image compositing and temp-file handling are side effects of
external collaborators (reportlab canvas, PIL, `tempfile`/`os`).  They are
modelled as an explicit trace of events, emitted in the source's
execution order.  Failure points of the source (the per-card `try/except`
around compositing, around `drawImage`, and around `os.remove`) are
modelled by boolean oracles indexed by the card / file. -/

def BORDER_WIDTH : ℚ := 1

/-- reportlab `colors.lightgrey` (#D3D3D3). -/
def rgbLightGrey : RGB := ⟨0xD3 / 255, 0xD3 / 255, 0xD3 / 255⟩

inductive Ev where
  /-- `c.rect(..., stroke=0, fill=1)`: the front-face background fill. -/
  | fillRect (x y w h : ℚ) (color : RGB)
  | setLineWidth (w : ℚ)
  | setStrokeColor (c : RGB)
  /-- `c.rect(..., stroke=1, fill=0)`: a stroked (border) rectangle. -/
  | strokeRect (x y w h : ℚ)
  /-- a composited temp PNG for card `i` was written to disk. -/
  | createTemp (i : ℕ)
  /-- `st.error` from the compositing `except` branch for card `i`. -/
  | compositeError (i : ℕ)
  | drawImage (i : ℕ)
  /-- `st.error` from the `drawImage` `except` branch for card `i`. -/
  | imageError (i : ℕ)
  /-- a centered paragraph drawn with the given foreground color. -/
  | text (s : String) (fg : RGB)
  | showPage
  | save
  | deleteTemp (i : ℕ)
  /-- `st.warning` from the `os.remove` `except OSError` branch. -/
  | warnDelete (i : ℕ)
deriving DecidableEq, Repr

/-- The events `draw_card_border` would emit (the helper exists in the
source but is never called). -/
def draw_card_border_events (x y w h : ℚ) : List Ev :=
  [Ev.setLineWidth BORDER_WIDTH, Ev.setStrokeColor rgbLightGrey,
   Ev.strokeRect x y w h]

/-- `COLOR_MAP.get(card_specific_color_key, default_back_color)`. -/
def cardBackColor (card : Card) (defColor : RGB) : RGB :=
  match card.card_color_key with
  | some k => colorMapGet k defColor
  | none => defColor

/-- One iteration of the recto loop of `build_pdf` for slot `i`:
background fill, then (image present and composited ⇒ temp created, then
either the image plus the question text in the upper text box, or — on a
draw failure — the error plus the full-cell fallback text and `continue`),
else the full-cell question text. -/
def cardFrontTrace (grid : Grid) (defColor : RGB) (hasImg : Bool)
    (compOk drawOk : ℕ → Bool) (card : Card) (i : ℕ) : List Ev :=
  let xy := card_xy grid (i % COLS) (i / COLS)
  let bg := cardBackColor card defColor
  let fg := frontTextColor bg
  Ev.fillRect xy.1 xy.2 grid.card_w grid.card_h bg ::
  (if hasImg then
    if compOk i then
      Ev.createTemp i ::
      (if drawOk i then [Ev.drawImage i, Ev.text card.question fg]
       else [Ev.imageError i, Ev.text card.question fg])
    else [Ev.compositeError i, Ev.text card.question fg]
  else [Ev.text card.question fg])

/-- The cleanup loop at the end of `build_pdf`: one `os.remove` attempt
per temp file appended during the recto pass, each wrapped in
`try/except OSError` so a failure is a warning and the loop continues. -/
def cleanupTrace (hasImg : Bool) (compOk delOk : ℕ → Bool) : List Ev :=
  (List.range NB_CARTES).filterMap (fun i =>
    if hasImg && compOk i then
      some (if delOk i then Ev.deleteTemp i else Ev.warnDelete i)
    else none)

/-- The whole `build_pdf` as a draw-event trace: recto pass, `showPage`,
verso pass (mirrored columns, black verso style), `save`, cleanup.
`hasImg` says whether `Image.open` on the uploaded image succeeded. -/
def buildTrace (cards : List Card) (defColor : RGB) (hasImg : Bool)
    (compOk drawOk delOk : ℕ → Bool) : List Ev :=
  let grid := compute_grid
  let cards10 := assembleDeck cards
  ((List.range NB_CARTES).flatMap (fun i =>
      cardFrontTrace grid defColor hasImg compOk drawOk
        (cards10.getD i blankCard) i))
  ++ [Ev.showPage]
  ++ ((List.range NB_CARTES).map (fun i =>
      Ev.text (cards10.getD i blankCard).texte rgbBlack))
  ++ [Ev.save]
  ++ cleanupTrace hasImg compOk delOk

/-- Is the event a stroked (border) rectangle? -/
def isStrokeRectEv : Ev → Bool
  | Ev.strokeRect _ _ _ _ => true
  | _ => false

/-- Is the event a filled (background) rectangle? -/
def isFillRectEv : Ev → Bool
  | Ev.fillRect _ _ _ _ _ => true
  | _ => false

/-- The `st.button` handler: `if cards: build_pdf(...) else: st.error(...)`.
`none` models the error branch — no document is produced. -/
def generate_pdf (cards : List Card) (defColor : RGB) (hasImg : Bool)
    (compOk drawOk delOk : ℕ → Bool) : Option (List Ev) :=
  if cards.isEmpty then none
  else some (buildTrace cards defColor hasImg compOk drawOk delOk)

/-! ## Theorems -/

/-- C1: for every parsed input, the deck assembled before rendering has
length exactly `NB_CARTES = 10`; slot `i` holds the `i`-th parsed record
when `i < n` (input order) and the blank record (empty question, empty
back text, no color key) otherwise; records beyond the tenth are dropped
(the deck has no slot for them). -/
theorem deck_padding (cards : List Card) :
    (assembleDeck cards).length = NB_CARTES ∧
    (∀ i : ℕ, i < NB_CARTES →
      (assembleDeck cards).get? i =
        if i < cards.length then cards.get? i else some blankCard) := by
  constructor
  · simp [assembleDeck, NB_CARTES]
  · intro i hi
    unfold assembleDeck
    rw [List.get?_take hi]
    by_cases h : i < (cards.take NB_CARTES).length
    · rw [List.get?_append h]
      rw [List.length_take] at h
      rw [List.get?_take (show i < NB_CARTES from hi), if_pos (by omega)]
    · rw [List.get?_append_right (le_of_not_lt h)]
      rw [List.length_take] at h
      rw [if_neg (by omega)]
      rw [List.get?_eq_getElem?,
        List.getElem?_replicate_of_lt (by rw [List.length_take]; omega)]

theorem deck_padding_witness :
    (assembleDeck [⟨"q1", "a1", none⟩]).length = NB_CARTES ∧
    (assembleDeck [⟨"q1", "a1", none⟩]).get? 0 = some ⟨"q1", "a1", none⟩ ∧
    (assembleDeck [⟨"q1", "a1", none⟩]).get? 5 = some blankCard := by
  refine ⟨(deck_padding _).1, ?_, ?_⟩
  · have h := (deck_padding [⟨"q1", "a1", none⟩]).2 0 (by decide)
    simpa using h
  · have h := (deck_padding [⟨"q1", "a1", none⟩]).2 5 (by decide)
    simpa using h

/-- C2: for every logical slot `i` in `0..9`, the front face uses cell
`(i % 2, i / 2)` (identity mapping) and the back face uses cell
`(1 - i % 2, i / 2)`: column mirrored, row unchanged. -/
theorem duplex_mapping (i : ℕ) (hi : i < NB_CARTES) :
    frontCell i = (i % 2, i / 2) ∧ backCell i = (1 - i % 2, i / 2) :=
  ⟨rfl, rfl⟩

theorem duplex_mapping_witness :
    frontCell 3 = (3 % 2, 3 / 2) ∧ backCell 3 = (1 - 3 % 2, 3 / 2) :=
  duplex_mapping 3 (by decide)

/-- C3: for the fixed constants (A4 page, 2 columns, 5 rows, 1 cm margin,
0.35 cm gap), the grid tiles the printable area with no residual —
`card_w * COLS + GAP * (COLS - 1) + 2 * MARGIN = page_w`, and analogously
for the height — and the cell origin for `(col, row)` is
`x = MARGIN + col * (card_w + GAP)`,
`y = page_h - MARGIN - row * (card_h + GAP) - card_h`, with row 0 topmost. -/
theorem grid_tiling :
    compute_grid.card_w * (COLS : ℚ) + GAP * ((COLS : ℚ) - 1) + 2 * MARGIN
      = compute_grid.page_w ∧
    compute_grid.card_h * (ROWS : ℚ) + GAP * ((ROWS : ℚ) - 1) + 2 * MARGIN
      = compute_grid.page_h ∧
    ∀ col row : ℕ,
      (card_xy compute_grid col row).1
        = MARGIN + (col : ℚ) * (compute_grid.card_w + GAP) ∧
      (card_xy compute_grid col row).2
        = compute_grid.page_h - MARGIN
            - (row : ℚ) * (compute_grid.card_h + GAP)
            - compute_grid.card_h := by
  refine ⟨?_, ?_, ?_⟩
  · norm_num [compute_grid, MARGIN, GAP, A4w, cmUnit, COLS]
  · norm_num [compute_grid, MARGIN, GAP, A4h, cmUnit, ROWS]
  · intro col row
    refine ⟨?_, ?_⟩ <;> (simp only [card_xy, compute_grid]; try ring)

/-- C5 counterexample: the claim classifies a background whose luminance
is exactly 0.55 as dark (white foreground); the code tests `lum < 0.55`
strictly, so the gray `(0.55, 0.55, 0.55)` — whose luminance is exactly
0.55 since the three weights sum to 1 — is classified as not dark and
gets a black foreground. -/
theorem luminance_boundary_cex :
    0.2126 * (0.55 : ℚ) + 0.7152 * 0.55 + 0.0722 * 0.55 = 0.55 ∧
    is_dark ⟨0.55, 0.55, 0.55⟩ = false ∧
    frontTextColor ⟨0.55, 0.55, 0.55⟩ = rgbBlack := by
  have h : is_dark ⟨0.55, 0.55, 0.55⟩ = false := by
    simp only [is_dark, decide_eq_false_iff_not, not_lt]
    norm_num
  exact ⟨by norm_num, h, by simp [frontTextColor, h]⟩

/-- C5 (amended): the front-face foreground is white exactly when
`0.2126 r + 0.7152 g + 0.0722 b < 0.55` (strict), black otherwise; the
boundary `lum = 0.55` is classified as not dark and gets black; black
`(0,0,0)` gets a white foreground and white `(1,1,1)` a black one. -/
theorem luminance_foreground (bg : RGB) :
    frontTextColor bg =
      (if 0.2126 * bg.red + 0.7152 * bg.green + 0.0722 * bg.blue < (0.55 : ℚ)
       then rgbWhite else rgbBlack) ∧
    frontTextColor rgbBlack = rgbWhite ∧
    frontTextColor rgbWhite = rgbBlack ∧
    frontTextColor ⟨0.55, 0.55, 0.55⟩ = rgbBlack := by
  have hgen : ∀ c : RGB, frontTextColor c =
      (if 0.2126 * c.red + 0.7152 * c.green + 0.0722 * c.blue < (0.55 : ℚ)
       then rgbWhite else rgbBlack) := by
    intro c
    by_cases h : 0.2126 * c.red + 0.7152 * c.green + 0.0722 * c.blue < (0.55 : ℚ)
    · simp [frontTextColor, is_dark, h]
    · simp [frontTextColor, is_dark, h]
  refine ⟨hgen bg, ?_, ?_, ?_⟩
  · rw [hgen]; norm_num [rgbBlack]
  · rw [hgen]; norm_num [rgbWhite]
  · rw [hgen]; norm_num

/-- C6: when parsing yields zero card records (for example a file with
only a header row), the button handler takes the error branch and
produces no document at all; a document is produced exactly when at
least one record was parsed. -/
theorem no_cards_aborts :
    read_cards_from_rows [["question", "reponse"]] = [] ∧
    ∀ (cards : List Card) (defColor : RGB) (hasImg : Bool)
      (compOk drawOk delOk : ℕ → Bool),
      (generate_pdf cards defColor hasImg compOk drawOk delOk = none ↔
        cards = []) := by
  constructor
  · rfl
  · intro cards defColor hasImg compOk drawOk delOk
    cases cards <;> simp [generate_pdf]

/-- Characterization of the `pick_color_from_filename` loop as a first
match over the candidate list. -/
theorem pickColorLoop_eq_find (low : String) (ks : List String) :
    pickColorLoop low ks =
      ((ks.find? (fun k => strContains low k)).getD "bleu") := by
  induction ks with
  | nil => rfl
  | cons k ks ih =>
    by_cases h : strContains low k
    · simp [pickColorLoop, List.find?, h]
    · simp only [pickColorLoop, List.find?, h, if_neg]
      simpa [h] using ih

/-- C9: the batch default back color is the first of
`["bleu", "rouge", "rose", "vert", "jaune"]` (in that fixed order) that
occurs as a substring of the lowercased filename, and `"bleu"` when none
occurs; the result is well-defined also when several names occur
(`"jaune_vert.csv"` yields `"vert"`, the earlier entry of the candidate
list). -/
theorem filename_color (filename : String) :
    (pick_color_from_filename filename).1 =
      ((COLOR_KEYS.find? (fun k => strContains (pyLower filename) k)).getD
        "bleu") ∧
    ((∀ k ∈ COLOR_KEYS, strContains (pyLower filename) k = false) →
      pick_color_from_filename filename =
        ("bleu", ⟨0x2D / 255, 0x6C / 255, 0xDF / 255⟩)) ∧
    (pick_color_from_filename "jaune_vert.csv").1 = "vert" ∧
    (pick_color_from_filename "MesMots_ROUGE.csv").1 = "rouge" := by
  refine ⟨?_, ?_, by decide, by decide⟩
  · simp [pick_color_from_filename, pickColorLoop_eq_find]
  · intro h
    have hfind : COLOR_KEYS.find? (fun k => strContains (pyLower filename) k)
        = none := by
      rw [List.find?_eq_none]
      intro k hk
      simp [h k hk]
    simp only [pick_color_from_filename, pickColorLoop_eq_find, hfind,
      Option.getD_none]
    norm_num [colorMapGet, COLOR_MAP, List.find?]

theorem filename_color_witness :
    pick_color_from_filename "mots.csv" =
      ("bleu", ⟨0x2D / 255, 0x6C / 255, 0xDF / 255⟩) :=
  (filename_color "mots.csv").2.1 (by decide)

theorem countP_zero_of_all {α : Type} (p : α → Bool) (l : List α)
    (h : ∀ a ∈ l, p a = false) : l.countP p = 0 := by
  rw [List.countP_eq_zero]
  intro a ha
  simp [h a ha]

theorem countP_flatMap_zero {α β : Type} (p : β → Bool) (f : α → List β)
    (l : List α) (h : ∀ a ∈ l, (f a).countP p = 0) :
    (l.flatMap f).countP p = 0 := by
  induction l with
  | nil => simp
  | cons a l ih =>
    simp only [List.flatMap_cons, List.countP_append]
    rw [h a (by simp), ih (fun b hb => h b (by simp [hb]))]

/-- One front-card segment emits no stroked rectangle, whatever the
oracles say. -/
theorem cardFrontTrace_no_stroke (grid : Grid) (defColor : RGB)
    (hasImg : Bool) (compOk drawOk : ℕ → Bool) (card : Card) (i : ℕ) :
    (cardFrontTrace grid defColor hasImg compOk drawOk card i).countP
      isStrokeRectEv = 0 := by
  cases hasImg <;> cases hcomp : compOk i <;> cases hdraw : drawOk i <;>
    simp [cardFrontTrace, hcomp, hdraw, isStrokeRectEv, List.countP_cons]

/-- C7 counterexample: the claim says every cell of the output grid is
outlined with a border; on a concrete one-card input (and any other) the
emitted trace contains ten background fills and not a single stroked
rectangle — `draw_card_border` is never invoked by `build_pdf`. -/
theorem cell_borders_cex :
    ((buildTrace [⟨"q", "a", none⟩] rgbBlack false (fun _ => true)
        (fun _ => true) (fun _ => true)).countP isStrokeRectEv = 0) ∧
    ((buildTrace [⟨"q", "a", none⟩] rgbBlack false (fun _ => true)
        (fun _ => true) (fun _ => true)).countP isFillRectEv
      = NB_CARTES) := by
  constructor <;> rfl

/-- C7 (amended): no cell border is drawn on either page: `build_pdf`
never calls `draw_card_border`, on any input; the helper exists and, if
it were called, would stroke at `BORDER_WIDTH = 1` in light gray. -/
theorem no_cell_borders (cards : List Card) (defColor : RGB)
    (hasImg : Bool) (compOk drawOk delOk : ℕ → Bool) :
    (buildTrace cards defColor hasImg compOk drawOk delOk).countP
      isStrokeRectEv = 0 ∧
    BORDER_WIDTH = 1 ∧
    ∀ x y w h : ℚ, draw_card_border_events x y w h =
      [Ev.setLineWidth 1, Ev.setStrokeColor rgbLightGrey,
       Ev.strokeRect x y w h] := by
  refine ⟨?_, rfl, fun x y w h => rfl⟩
  have h1 : ((List.range NB_CARTES).flatMap (fun j =>
      cardFrontTrace compute_grid defColor hasImg compOk drawOk
        ((assembleDeck cards).getD j blankCard) j)).countP
        isStrokeRectEv = 0 :=
    countP_flatMap_zero _ _ _
      (fun a _ => cardFrontTrace_no_stroke _ _ _ _ _ _ _)
  have h2 : (((List.range NB_CARTES).map (fun j =>
      Ev.text ((assembleDeck cards).getD j blankCard).texte
        rgbBlack))).countP isStrokeRectEv = 0 :=
    countP_zero_of_all _ _ (fun a ha => by
      rcases List.mem_map.mp ha with ⟨j, _, rfl⟩
      rfl)
  have h3 : (cleanupTrace hasImg compOk delOk).countP isStrokeRectEv = 0 :=
    countP_zero_of_all _ _ (fun a ha => by
      simp only [cleanupTrace, List.mem_filterMap] at ha
      obtain ⟨j, _, hj⟩ := ha
      by_cases hc : hasImg && compOk j
      · rw [if_pos hc] at hj
        cases hj
        by_cases hd : delOk j <;> simp [hd, isStrokeRectEv]
      · rw [if_neg hc] at hj
        cases hj)
  simp only [buildTrace, List.countP_append]
  rw [h1, h2, h3]
  rfl

/-- C8: for every card whose image is composited (a temp PNG written and
recorded), the creation event precedes the draw attempt for that card,
and a deletion attempt for that file occurs after the document is saved
— whether the draw succeeded or failed — and a failed deletion is a
warning event (the cleanup loop never aborts: the attempt exists for
every composited card regardless of the other oracles). -/
theorem temp_cleanup (cards : List Card) (defColor : RGB)
    (compOk drawOk delOk : ℕ → Bool) (i : ℕ)
    (hi : i < NB_CARTES) (hcomp : compOk i = true) :
    [Ev.createTemp i,
     (if drawOk i then Ev.drawImage i else Ev.imageError i),
     Ev.save,
     (if delOk i then Ev.deleteTemp i else Ev.warnDelete i)].Sublist
      (buildTrace cards defColor true compOk drawOk delOk) := by
  have hmem : i ∈ List.range NB_CARTES := List.mem_range.mpr hi
  obtain ⟨s, t, hst⟩ := List.append_of_mem hmem
  have hsub1 : [Ev.createTemp i,
      (if drawOk i then Ev.drawImage i else Ev.imageError i)].Sublist
      (cardFrontTrace compute_grid defColor true compOk drawOk
        ((assembleDeck cards).getD i blankCard) i) := by
    cases hd : drawOk i <;>
      simp only [cardFrontTrace, hcomp, hd, Bool.true_eq_false, if_true,
        if_false, ite_true, ite_false] <;>
      exact List.Sublist.cons _
        (List.Sublist.cons₂ _ (List.Sublist.cons₂ _ (List.nil_sublist _)))
  have hsub_front : [Ev.createTemp i,
      (if drawOk i then Ev.drawImage i else Ev.imageError i)].Sublist
      ((List.range NB_CARTES).flatMap (fun j =>
        cardFrontTrace compute_grid defColor true compOk drawOk
          ((assembleDeck cards).getD j blankCard) j)) := by
    rw [hst, List.flatMap_append, List.flatMap_cons]
    exact (hsub1.trans (List.sublist_append_left _ _)).trans
      (List.sublist_append_right _ _)
  have hdelmem : (if delOk i then Ev.deleteTemp i else Ev.warnDelete i)
      ∈ cleanupTrace true compOk delOk :=
    List.mem_filterMap.mpr ⟨i, hmem, by simp [hcomp]⟩
  have hsub2 : [Ev.save,
      (if delOk i then Ev.deleteTemp i else Ev.warnDelete i)].Sublist
      (Ev.save :: cleanupTrace true compOk delOk) :=
    List.Sublist.cons₂ _ (List.singleton_sublist.mpr hdelmem)
  have hsub3 : [Ev.save,
      (if delOk i then Ev.deleteTemp i else Ev.warnDelete i)].Sublist
      ([Ev.showPage]
        ++ ((List.range NB_CARTES).map (fun j =>
              Ev.text ((assembleDeck cards).getD j blankCard).texte rgbBlack))
        ++ [Ev.save] ++ cleanupTrace true compOk delOk) := by
    refine hsub2.trans ?_
    have h := List.sublist_append_right
      ([Ev.showPage] ++ ((List.range NB_CARTES).map (fun j =>
          Ev.text ((assembleDeck cards).getD j blankCard).texte rgbBlack)))
      (Ev.save :: cleanupTrace true compOk delOk)
    simpa [List.append_assoc] using h
  have h := hsub_front.append hsub3
  simpa [buildTrace, List.append_assoc] using h

theorem temp_cleanup_witness :
    [Ev.createTemp 0, Ev.imageError 0, Ev.save, Ev.warnDelete 0].Sublist
      (buildTrace [] rgbBlack true (fun _ => true) (fun _ => false)
        (fun _ => false)) := by
  have h := temp_cleanup [] rgbBlack (fun _ => true) (fun _ => false)
    (fun _ => false) 0 (by decide) rfl
  simpa using h

theorem tailAfterSpaces_decomp (p c ws : List Char)
    (hws : ∀ a ∈ ws, isPySpace a = true) :
    tailAfterSpaces (p ++ '(' :: c ++ ')' :: ws)
      = ')' :: (c.reverse ++ '(' :: p.reverse) := by
  unfold tailAfterSpaces
  have hrev : (p ++ '(' :: c ++ ')' :: ws).reverse
      = ws.reverse ++ ')' :: (c.reverse ++ '(' :: p.reverse) := by
    simp
  rw [hrev,
    List.dropWhile_append_of_pos (fun a ha => hws a (List.mem_reverse.mp ha)),
    List.dropWhile_cons_of_neg (by decide)]

theorem matchParenCore_decomp (p c : List Char)
    (hc : c ≠ []) (hcp : ')' ∉ c)
    (hp : '(' ∉ p.reverse.takeWhile (fun x => x ≠ ')')) :
    matchParenCore (c.reverse ++ '(' :: p.reverse) = some (c, p) := by
  have hcall : ∀ a ∈ c.reverse, decide (a ≠ ')') = true := by
    intro a ha
    rw [decide_eq_true_eq]
    intro h
    exact hcp (h ▸ List.mem_reverse.mp ha)
  have hpall : ∀ a ∈ (p.reverse.takeWhile (fun x => x ≠ ')')).reverse,
      decide (a ≠ '(') = true := by
    intro a ha
    rw [decide_eq_true_eq]
    intro h
    exact hp (h ▸ List.mem_reverse.mp ha)
  have hchunk : (c.reverse ++ '(' :: p.reverse).takeWhile (fun x => x ≠ ')')
      = c.reverse ++ '(' :: (p.reverse.takeWhile (fun x => x ≠ ')')) := by
    rw [List.takeWhile_append_of_pos hcall,
      List.takeWhile_cons_of_pos (by decide)]
  have hsplit : c.reverse ++ '(' :: p.reverse
      = (c.reverse ++ '(' :: (p.reverse.takeWhile (fun x => x ≠ ')')))
        ++ p.reverse.dropWhile (fun x => x ≠ ')') := by
    rw [List.append_assoc, List.cons_append,
      List.takeWhile_append_dropWhile]
  have hdrop : (c.reverse ++ '(' :: p.reverse).drop
      ((c.reverse ++ '(' :: (p.reverse.takeWhile (fun x => x ≠ ')'))).length)
      = p.reverse.dropWhile (fun x => x ≠ ')') := by
    conv_lhs => rw [hsplit]
    exact List.drop_left _ _
  have hchunkrev :
      (c.reverse ++ '(' :: (p.reverse.takeWhile (fun x => x ≠ ')'))).reverse
      = (p.reverse.takeWhile (fun x => x ≠ ')')).reverse ++ '(' :: c := by
    simp
  have hspan :
      ((p.reverse.takeWhile (fun x => x ≠ ')')).reverse ++ '(' :: c).span
        (fun x => x ≠ '(')
      = ((p.reverse.takeWhile (fun x => x ≠ ')')).reverse, '(' :: c) := by
    rw [List.span_eq_take_drop,
      List.takeWhile_append_of_pos hpall,
      List.dropWhile_append_of_pos hpall,
      List.takeWhile_cons_of_neg (by decide),
      List.dropWhile_cons_of_neg (by decide), List.append_nil]
  have hce : c.isEmpty = false := by
    cases c with
    | nil => exact absurd rfl hc
    | cons a l => rfl
  simp only [matchParenCore, hchunk, hdrop, hchunkrev, hspan, hce,
    Bool.false_eq_true, if_false, Option.some.injEq, Prod.mk.injEq,
    eq_self_iff_true, true_and]
  rw [← List.reverse_append, List.takeWhile_append_dropWhile,
    List.reverse_reverse]

theorem matchTrailingParen_decomp (p c ws : List Char)
    (hc : c ≠ []) (hcp : ')' ∉ c) (hws : ∀ a ∈ ws, isPySpace a = true)
    (hp : '(' ∉ p.reverse.takeWhile (fun x => x ≠ ')')) :
    matchTrailingParen (p ++ '(' :: c ++ ')' :: ws) = some (c, p) := by
  unfold matchTrailingParen
  rw [tailAfterSpaces_decomp p c ws hws]
  simp only [if_pos rfl]
  exact matchParenCore_decomp p c hc hcp hp

/-- C4: when the raw question text decomposes as `p ++ "(" ++ c ++ ")" ++ ws`
with `ws` whitespace-only, `c` a non-empty run without `)` and no stray
`(` after the last `)` of `p` (so that the regex's leftmost match is
exactly this trailing group): if `c`, lowercased and trimmed, is one of
the five recognized color names, then that name becomes the color key and
the group plus surrounding whitespace is stripped (the source also strips
the remaining prefix); otherwise the text is returned untouched — also
when there is no trailing parenthetical at all, as witnessed by the three
concrete examples of the spec. -/
theorem color_tag_extraction :
    (∀ p c ws : List Char, c ≠ [] → ')' ∉ c →
      (∀ a ∈ ws, isPySpace a = true) →
      '(' ∉ p.reverse.takeWhile (fun x => x ≠ ')') →
      extract_color_tag (String.mk (p ++ '(' :: c ++ ')' :: ws)) =
        (if colorKeyKnown (String.mk (pyStripL (c.map Char.toLower)))
         then (String.mk (pyStripL p),
               some (String.mk (pyStripL (c.map Char.toLower))))
         else (String.mk (p ++ '(' :: c ++ ')' :: ws), none))) ∧
    extract_color_tag "Capital of France (rouge)"
      = ("Capital of France", some "rouge") ∧
    extract_color_tag "Capital of France" = ("Capital of France", none) ∧
    extract_color_tag "Capital of France (violet)"
      = ("Capital of France (violet)", none) := by
  refine ⟨?_, by decide, by decide, by decide⟩
  intro p c ws hc hcp hws hp
  unfold extract_color_tag
  rw [show (String.mk (p ++ '(' :: c ++ ')' :: ws)).data
      = p ++ '(' :: c ++ ')' :: ws from rfl]
  rw [matchTrailingParen_decomp p c ws hc hcp hws hp]

theorem char_toLower_idem (ch : Char) : ch.toLower.toLower = ch.toLower := by
  have hval : ∀ n : ℕ, n ≥ 65 → n ≤ 90 →
      (Char.ofNat (n + 32)).toNat = n + 32 := by
    intro n h1 h2
    have hvalid : Nat.isValidChar (n + 32) := Or.inl (by omega)
    unfold Char.ofNat
    rw [dif_pos hvalid]
    rfl
  by_cases h : ch.toNat ≥ 65 ∧ ch.toNat ≤ 90
  · have h1 : ch.toLower = Char.ofNat (ch.toNat + 32) := by
      simp only [Char.toLower]
      rw [if_pos h]
    rw [h1]
    simp only [Char.toLower]
    rw [if_neg (by rw [hval ch.toNat h.1 h.2]; omega)]
  · have h1 : ch.toLower = ch := by
      simp only [Char.toLower]
      rw [if_neg h]
    rw [h1, h1]

theorem normalizeL_idem (l : List Char) :
    ((((l.map Char.toLower).filter (fun c => !(isPySpace c))).map
        Char.toLower).filter (fun c => !(isPySpace c)))
      = (l.map Char.toLower).filter (fun c => !(isPySpace c)) := by
  have hmap : ((l.map Char.toLower).filter (fun c => !(isPySpace c))).map
      Char.toLower
      = (l.map Char.toLower).filter (fun c => !(isPySpace c)) := by
    rw [List.filter_map, List.map_map,
      show Char.toLower ∘ Char.toLower = Char.toLower from
        funext char_toLower_idem]
  rw [hmap, List.filter_filter]
  congr 1
  funext a
  cases isPySpace a <;> rfl

theorem normalize_header_idem (s : String) :
    normalize_header (normalize_header s) = normalize_header s := by
  unfold normalize_header
  exact congrArg String.mk (normalizeL_idem s.data)

theorem find?_congr_of_eq {α : Type} (p q : α → Bool) (l : List α)
    (h : ∀ a ∈ l, p a = q a) : l.find? p = l.find? q := by
  induction l with
  | nil => rfl
  | cons a l ih =>
    rw [List.find?_cons, List.find?_cons, h a (List.mem_cons_self a l)]
    cases hqa : q a
    · exact ih (fun b hb => h b (List.mem_cons_of_mem a hb))
    · rfl

/-- Looking a key up (as `get_field` does, scanning the entries in
order) in a dict after a Python dict assignment `d[k] = v`: the value of
`k` is now `v`, every other key is untouched. -/
theorem dictInsert_find (d : List (String × String)) (k v key : String) :
    (dictInsert d k v).find? (fun p => p.1 = key)
      = if k = key then some (key, v)
        else d.find? (fun p => p.1 = key) := by
  unfold dictInsert
  by_cases hk : k = key
  · subst hk
    rw [if_pos rfl]
    by_cases hany : d.any (fun p => p.1 = k)
    · rw [if_pos hany, List.find?_map]
      have hcong : d.find? ((fun p => decide (p.1 = k)) ∘
          (fun p => if p.1 = k then (p.1, v) else p))
          = d.find? (fun p => decide (p.1 = k)) := by
        apply find?_congr_of_eq
        intro a _
        show decide ((if a.1 = k then (a.1, v) else a).1 = k)
          = decide (a.1 = k)
        by_cases h : a.1 = k
        · rw [if_pos h]
        · rw [if_neg h]
      rw [hcong]
      obtain ⟨a0, ha0mem, ha0⟩ := List.any_eq_true.mp hany
      obtain ⟨q0, hq0⟩ := Option.isSome_iff_exists.mp
        (show (d.find? (fun p => decide (p.1 = k))).isSome from
          List.find?_isSome.mpr ⟨a0, ha0mem, ha0⟩)
      rw [hq0]
      have hpq0 := List.find?_some hq0
      have hq0key : q0.1 = k := of_decide_eq_true hpq0
      show some (if q0.1 = k then (q0.1, v) else q0) = some (k, v)
      rw [if_pos hq0key, hq0key]
    · rw [if_neg hany, List.find?_append]
      have hnone : d.find? (fun p => decide (p.1 = k)) = none := by
        rw [List.find?_eq_none]
        intro x hx hpx
        exact hany (List.any_eq_true.mpr ⟨x, hx, hpx⟩)
      rw [hnone, List.find?_cons_of_pos _ (by simp)]
      rfl
  · rw [if_neg hk]
    by_cases hany : d.any (fun p => p.1 = k)
    · rw [if_pos hany, List.find?_map]
      have hcong : d.find? ((fun p => decide (p.1 = key)) ∘
          (fun p => if p.1 = k then (p.1, v) else p))
          = d.find? (fun p => decide (p.1 = key)) := by
        apply find?_congr_of_eq
        intro a _
        show decide ((if a.1 = k then (a.1, v) else a).1 = key)
          = decide (a.1 = key)
        by_cases h : a.1 = k
        · rw [if_pos h]
        · rw [if_neg h]
      rw [hcong]
      cases hfd : d.find? (fun p => decide (p.1 = key)) with
      | none => rfl
      | some q0 =>
        have hpq0 := List.find?_some hfd
        have hq0key : q0.1 = key := of_decide_eq_true hpq0
        show some (if q0.1 = k then (q0.1, v) else q0) = some q0
        rw [if_neg (fun hh => hk (hh.symm.trans hq0key))]
    · rw [if_neg hany, List.find?_append]
      have hsing : [(k, v)].find? (fun p => p.1 = key) = none := by
        rw [List.find?_eq_none]
        intro x hx
        rcases List.mem_singleton.mp hx with rfl
        simp [hk]
      rw [hsing]
      cases d.find? (fun p => decide (p.1 = key)) <;> rfl

/-- The per-row dict built by folding Python dict assignments over the
column indices: looking a key up yields the value of the rightmost
column whose header is that key. -/
theorem foldDict_find (h v : ℕ → String) (key : String) (n : ℕ) :
    ((List.range n).foldl (fun d i => dictInsert d (h i) (v i)) []).find?
        (fun p => p.1 = key)
      = ((List.range n).reverse.find? (fun i => h i = key)).map
          (fun j => (key, v j)) := by
  induction n with
  | zero => rfl
  | succ n ih =>
    rw [List.range_succ, List.foldl_append, List.reverse_append]
    simp only [List.foldl_cons, List.foldl_nil, List.reverse_cons,
      List.reverse_nil, List.nil_append, List.singleton_append]
    rw [dictInsert_find]
    by_cases hn : h n = key
    · rw [if_pos hn, List.find?_cons_of_pos _ (by simp [hn])]
      rfl
    · rw [if_neg hn, ih, List.find?_cons_of_neg _ (by simp [hn])]

/-- Every key of the per-row dict is one of the headers. -/
theorem foldDict_keys (h v : ℕ → String) (n : ℕ) :
    ∀ q ∈ (List.range n).foldl (fun d i => dictInsert d (h i) (v i)) [],
      ∃ i, i < n ∧ q.1 = h i := by
  induction n with
  | zero => simp
  | succ n ih =>
    rw [List.range_succ, List.foldl_append]
    simp only [List.foldl_cons, List.foldl_nil]
    intro q hq
    unfold dictInsert at hq
    split at hq
    · rcases List.mem_map.mp hq with ⟨q0, hq0, rfl⟩
      have h1 : (if q0.1 = h n then (q0.1, v n) else q0).1 = q0.1 := by
        split <;> rfl
      obtain ⟨i, hi, hqi⟩ := ih q0 hq0
      exact ⟨i, by omega, by rw [h1, hqi]⟩
    · rcases List.mem_append.mp hq with hq | hq
      · obtain ⟨i, hi, hqi⟩ := ih q hq
        exact ⟨i, by omega, hqi⟩
      · rcases List.mem_singleton.mp hq with rfl
        exact ⟨n, by omega, rfl⟩

/-- A downward scan: `find?` over the reversed index range returns the
greatest index satisfying the predicate. -/
theorem find?_range_reverse (q : ℕ → Bool) (n j : ℕ) (hj : j < n)
    (hq : q j = true) (hmax : ∀ l, j < l → l < n → q l = false) :
    (List.range n).reverse.find? q = some j := by
  induction n with
  | zero => omega
  | succ n ih =>
    rw [List.range_succ, List.reverse_append]
    simp only [List.reverse_cons, List.reverse_nil, List.nil_append,
      List.singleton_append]
    rcases Nat.lt_or_ge j n with hlt | hge
    · rw [List.find?_cons_of_neg _ (by simp [hmax n hlt (by omega)])]
      exact ih hlt (fun l hl1 hl2 => hmax l hl1 (by omega))
    · have hjn : j = n := by omega
      subst hjn
      rw [List.find?_cons_of_pos _ (by simp [hq])]

/-- C10: in headered extraction, when two or more header cells normalize
(strip, lowercase, remove whitespace) to the same string, the value a
field lookup takes for that normalized name, for every data row, is the
cell of the rightmost such column (`j` below is the greatest index whose
header normalizes to the field name, and an earlier duplicate exists):
later duplicate columns overwrite earlier ones in the per-row dict. -/
theorem duplicate_headers_rightmost (hs r : List String) (qk fld : String)
    (j : ℕ) (hjlen : j < hs.length)
    (hqk : normalize_header qk = fld)
    (hj : normalize_header (hs.getD j "") = fld)
    (hmax : ∀ l, j < l → l < hs.length →
      normalize_header (hs.getD l "") ≠ fld)
    (hdup : ∃ i, i < j ∧ normalize_header (hs.getD i "") = fld) :
    get_field (rowDict (hs.map normalize_header) r) [qk]
      = pyStrip (getCell r j) := by
  have hlen : (hs.map normalize_header).length = hs.length :=
    List.length_map _ _
  have hgetD : ∀ i, i < hs.length →
      (hs.map normalize_header).getD i ""
        = normalize_header (hs.getD i "") := by
    intro i hilen
    rw [List.getD_eq_getElem?_getD, List.getD_eq_getElem?_getD,
      List.getElem?_map, List.getElem?_eq_getElem hilen]
    rfl
  have h0 := foldDict_find (fun i => (hs.map normalize_header).getD i "")
    (fun i => getCell r i) fld ((hs.map normalize_header).length)
  have hrev : ((List.range ((hs.map normalize_header).length)).reverse.find?
      (fun i => (hs.map normalize_header).getD i "" = fld)) = some j := by
    apply find?_range_reverse _ _ j (by omega)
    · rw [decide_eq_true_eq, hgetD j hjlen]
      exact hj
    · intro l hl1 hl2
      rw [hgetD l (by omega)]
      exact decide_eq_false (hmax l hl1 (by omega))
  have hfind : (rowDict (hs.map normalize_header) r).find?
      (fun p => p.1 = fld) = some (fld, getCell r j) := by
    unfold rowDict
    rw [h0, hrev]
    rfl
  have hcongr : (rowDict (hs.map normalize_header) r).find?
      (fun p => normalize_header p.1 = fld)
      = (rowDict (hs.map normalize_header) r).find?
          (fun p => p.1 = fld) := by
    apply find?_congr_of_eq
    intro q hq
    obtain ⟨i, hi, hqi⟩ := foldDict_keys
      (fun i => (hs.map normalize_header).getD i "")
      (fun i => getCell r i) ((hs.map normalize_header).length) q hq
    show decide (normalize_header q.1 = fld) = decide (q.1 = fld)
    rw [hqi, hgetD i (by omega), normalize_header_idem]
  simp only [get_field, getFieldScan, hqk, hcongr, hfind]

theorem duplicate_headers_rightmost_witness :
    get_field (rowDict (["Question", "question "].map normalize_header)
      ["a", "b"]) ["Question"] = "b" := by
  have h := duplicate_headers_rightmost ["Question", "question "]
    ["a", "b"] "Question" "question" 1 (by decide) (by decide) (by decide)
    (by
      intro l h1 h2
      simp only [List.length_cons, List.length_nil] at h2
      omega)
    ⟨0, by omega, by decide⟩
  rw [h]
  decide

theorem color_tag_extraction_witness :
    extract_color_tag
        (String.mk ("AB".data ++ '(' :: "Vert ".data ++ ')' :: " ".data))
      = ("AB", some "vert") := by
  have h := color_tag_extraction.1 "AB".data "Vert ".data " ".data
    (by decide) (by decide) (by decide) (by decide)
  rw [h]
  decide

end App
